import Mathlib

/-!
Verification of the relm4-macros code generator.

The development shallowly embeds the two source files of the repository:

* `src/relm4-macros/src/util.rs` — the identifier generator
  `idents_to_snake_case`, modelled with Rust strings as lists of bytes
  (`List Nat`) and the process-wide `AtomicU16` counter as explicit state
  that is threaded through a trace of calls.

* `src/relm4-macros/src/lib.rs` — the `widget` attribute pipeline: the
  staged error returns, the per-widget emitter loop and the final
  `quote!` layout of `init_view`, `connect_components` and `view`.

The widget-tree flattener and the per-widget stream emitters live in
modules (`widgets.rs`, `types.rs`, `funcs.rs`, ...) that are not part of
the source tree; those definitions are modelled from the specification
and are marked as such in their doc comments.
-/

set_option maxHeartbeats 1000000

/-! ## Identifier generator (src/relm4-macros/src/util.rs) -/

/-- Byte value of the separator character pushed by `name.push('_')`. -/
def underscoreByte : Nat := 95

/-- Modulus of the 16-bit atomic counter `COUNTER : AtomicU16`. -/
def counterMod : Nat := 2 ^ 16

/-- Byte of a single decimal digit, as produced by `val.to_string()`. -/
def digitByte (d : Nat) : Nat := 48 + d

/-- Decimal rendering of a natural number as a byte string
(`val.to_string()` in the source). -/
def natDecimal (n : Nat) : List Nat :=
  if n = 0 then [digitByte 0] else ((Nat.digits 10 n).map digitByte).reverse

/-- ASCII lowercasing of one byte, modelling `str::to_lowercase` on the
identifier characters that `syn::Ident` strings consist of. -/
def lowerByte (b : Nat) : Nat := if 65 ≤ b ∧ b ≤ 90 then b + 32 else b

/-- `ident.to_string().to_lowercase()` on a byte string. -/
def toLowercase (s : List Nat) : List Nat := s.map lowerByte

/-- One call of `idents_to_snake_case`.  The `AtomicU16` counter is passed
and returned explicitly: `fetch_add(1, Relaxed)` reads the current 16-bit
value and stores the wrapping increment.  The name is built exactly as in
the source: for every lower-cased segment an underscore followed by the
segment, then an underscore and the decimal digits of the counter value. -/
def identsToSnakeCase (idents : List (List Nat)) (counter : Nat) :
    List Nat × Nat :=
  let val := counter % counterMod
  let indexStr := natDecimal val
  let segements := idents.map toLowercase
  let name := segements.foldl (fun acc seg => acc ++ underscoreByte :: seg) []
  (name ++ underscoreByte :: indexStr, (val + 1) % counterMod)

/-- State of the process-wide counter before the k-th call of a sequence
of calls whose fragment arguments are given by `frags`.  The static
`COUNTER` starts at 0. -/
def counterAfter (frags : Nat → List (List Nat)) : Nat → Nat
  | 0 => 0
  | k + 1 => (identsToSnakeCase (frags k) (counterAfter frags k)).2

/-- The 16-bit counter value read (and rendered into the name) by the
k-th call of the sequence. -/
def callVal (frags : Nat → List (List Nat)) (k : Nat) : Nat :=
  counterAfter frags k % counterMod

/-- The identifier returned by the k-th call of the sequence. -/
def callName (frags : Nat → List (List Nat)) (k : Nat) : List Nat :=
  (identsToSnakeCase (frags k) (counterAfter frags k)).1

/-- Byte-level validity of a (non-raw) Rust identifier: an ASCII letter
or underscore followed by ASCII letters, digits or underscores, and not
the single underscore (which `Ident::new` rejects). -/
def isIdentContinueByte (b : Nat) : Bool :=
  decide ((65 ≤ b ∧ b ≤ 90) ∨ (97 ≤ b ∧ b ≤ 122) ∨ (48 ≤ b ∧ b ≤ 57) ∨ b = 95)

/-- Valid first byte of a Rust identifier. -/
def isIdentStartByte (b : Nat) : Bool :=
  decide ((65 ≤ b ∧ b ≤ 90) ∨ (97 ≤ b ∧ b ≤ 122) ∨ b = 95)

/-- Validity of a whole identifier string, the property checked by
`Ident::new`. -/
def isValidIdentStr : List Nat → Bool
  | [] => false
  | b :: rest =>
    isIdentStartByte b && rest.all isIdentContinueByte &&
      decide (¬ (b = underscoreByte ∧ rest = []))

/-! ### Basic lemmas about the generator -/

theorem counterMod_eq : counterMod = 65536 := by norm_num [counterMod]

theorem identsToSnakeCase_snd (idents : List (List Nat)) (counter : Nat) :
    (identsToSnakeCase idents counter).2 = (counter % counterMod + 1) % counterMod := rfl

theorem counterAfter_eq (frags : Nat → List (List Nat)) (k : Nat) :
    counterAfter frags k = k % counterMod := by
  induction k with
  | zero => simp [counterAfter]
  | succ k ih =>
    rw [counterAfter, identsToSnakeCase_snd, ih, counterMod_eq]
    omega

theorem foldl_sep_eq (l : List (List Nat)) (a : List Nat) :
    l.foldl (fun acc seg => acc ++ underscoreByte :: seg) a
      = a ++ (l.map (fun seg => underscoreByte :: seg)).flatten := by
  induction l generalizing a with
  | nil => simp
  | cons s l ih => simp [List.foldl_cons, ih]

theorem identsToSnakeCase_fst (idents : List (List Nat)) (counter : Nat) :
    (identsToSnakeCase idents counter).1
      = ((idents.map toLowercase).map (fun seg => underscoreByte :: seg)).flatten
          ++ underscoreByte :: natDecimal (counter % counterMod) := by
  simp [identsToSnakeCase, foldl_sep_eq]

theorem natDecimal_ne_nil (n : Nat) : natDecimal n ≠ [] := by
  unfold natDecimal
  split
  · simp
  · simpa using Nat.digits_ne_nil_iff_ne_zero.mpr (by assumption)

theorem natDecimal_mem_digit {n b : Nat} (h : b ∈ natDecimal n) :
    48 ≤ b ∧ b ≤ 57 := by
  unfold natDecimal at h
  split at h
  · simp [digitByte] at h
    omega
  · rw [List.mem_reverse] at h
    obtain ⟨d, hd, rfl⟩ := List.mem_map.1 h
    have hlt : d < 10 := Nat.digits_lt_base (by norm_num) hd
    unfold digitByte
    omega

theorem map_digitByte_inj :
    ∀ {l1 l2 : List Nat}, l1.map digitByte = l2.map digitByte → l1 = l2 := by
  intro l1
  induction l1 with
  | nil =>
    intro l2 h
    cases l2 with
    | nil => rfl
    | cons b t => simp at h
  | cons a l ih =>
    intro l2 h
    cases l2 with
    | nil => simp at h
    | cons b t =>
      simp only [List.map_cons, List.cons.injEq] at h
      obtain ⟨h1, h2⟩ := h
      have hab : a = b := by unfold digitByte at h1; omega
      rw [hab, ih h2]

theorem natDecimal_inj {u v : Nat} (h : natDecimal u = natDecimal v) : u = v := by
  by_cases hu : u = 0 <;> by_cases hv : v = 0
  · rw [hu, hv]
  · exfalso
    rw [natDecimal, natDecimal, if_pos hu, if_neg hv] at h
    have h' := congrArg List.reverse h
    simp only [List.reverse_reverse] at h'
    have hd : ([0] : List Nat).map digitByte = (Nat.digits 10 v).map digitByte := by
      simpa using h'
    have : (Nat.digits 10 v) = [0] := (map_digitByte_inj hd).symm
    have hv' := Nat.ofDigits_digits 10 v
    rw [this] at hv'
    simp [Nat.ofDigits] at hv'
    exact hv hv'.symm
  · exfalso
    rw [natDecimal, natDecimal, if_neg hu, if_pos hv] at h
    have h' := congrArg List.reverse h
    simp only [List.reverse_reverse] at h'
    have hd : (Nat.digits 10 u).map digitByte = ([0] : List Nat).map digitByte := by
      simpa using h'
    have : (Nat.digits 10 u) = [0] := map_digitByte_inj hd
    have hu' := Nat.ofDigits_digits 10 u
    rw [this] at hu'
    simp [Nat.ofDigits] at hu'
    exact hu hu'.symm
  · rw [natDecimal, natDecimal, if_neg hu, if_neg hv] at h
    have h' := congrArg List.reverse h
    simp only [List.reverse_reverse] at h'
    have : (Nat.digits 10 u) = (Nat.digits 10 v) := map_digitByte_inj h'
    calc u = Nat.ofDigits 10 (Nat.digits 10 u) := (Nat.ofDigits_digits 10 u).symm
      _ = Nat.ofDigits 10 (Nat.digits 10 v) := by rw [this]
      _ = v := Nat.ofDigits_digits 10 v

/-- A `takeWhile` stops exactly at the first element that fails the
predicate. -/
theorem takeWhile_append_stop {α : Type} (p : α → Bool) (xs : List α) (y : α)
    (ys : List α) (hxs : ∀ x ∈ xs, p x = true) (hy : p y = false) :
    (xs ++ y :: ys).takeWhile p = xs := by
  induction xs with
  | nil => simp [List.takeWhile_cons, hy]
  | cons a t ih =>
    have ha : p a = true := hxs a (by simp)
    simp only [List.cons_append, List.takeWhile_cons, ha, if_true]
    rw [ih (fun x hx => hxs x (by simp [hx]))]

/-- The decimal digits after the final separator determine the counter
value: two generated names agree only if the counter values agree. -/
theorem append_sep_decimal_inj {A B : List Nat} {u v : Nat}
    (h : A ++ underscoreByte :: natDecimal u = B ++ underscoreByte :: natDecimal v) :
    u = v := by
  have hrev := congrArg List.reverse h
  simp only [List.reverse_append, List.reverse_cons] at hrev
  have hrev' : (natDecimal u).reverse ++ underscoreByte :: A.reverse
      = (natDecimal v).reverse ++ underscoreByte :: B.reverse := by
    simpa [List.append_assoc] using hrev
  have hdig : ∀ w : Nat, ∀ x ∈ (natDecimal w).reverse,
      (fun b => decide (48 ≤ b ∧ b ≤ 57)) x = true := by
    intro w x hx
    rw [List.mem_reverse] at hx
    have := natDecimal_mem_digit hx
    simpa using this
  have hu95 : (fun b => decide (48 ≤ b ∧ b ≤ 57)) underscoreByte = false := by
    simp [underscoreByte]
  have h1 : ((natDecimal u).reverse ++ underscoreByte :: A.reverse).takeWhile
        (fun b => decide (48 ≤ b ∧ b ≤ 57)) = (natDecimal u).reverse :=
    takeWhile_append_stop _ _ _ _ (hdig u) hu95
  have h2 : ((natDecimal v).reverse ++ underscoreByte :: B.reverse).takeWhile
        (fun b => decide (48 ≤ b ∧ b ≤ 57)) = (natDecimal v).reverse :=
    takeWhile_append_stop _ _ _ _ (hdig v) hu95
  have : (natDecimal u).reverse = (natDecimal v).reverse := by
    rw [← h1, ← h2, hrev']
  exact natDecimal_inj (by simpa using congrArg List.reverse this)

/-- Every byte of the flattened fragment part of a generated name is
either a separator or the lowercasing of a fragment byte. -/
theorem mem_flatten_sep {frags : List (List Nat)} {b : Nat}
    (h : b ∈ ((frags.map toLowercase).map (fun seg => underscoreByte :: seg)).flatten) :
    b = underscoreByte ∨ ∃ f ∈ frags, ∃ b0 ∈ f, b = lowerByte b0 := by
  rw [List.mem_flatten] at h
  obtain ⟨l, hl, hb⟩ := h
  rw [List.mem_map] at hl
  obtain ⟨seg, hseg, rfl⟩ := hl
  rw [List.mem_map] at hseg
  obtain ⟨f, hf, rfl⟩ := hseg
  rcases List.mem_cons.1 hb with h95 | hlow
  · exact Or.inl h95
  · rw [toLowercase, List.mem_map] at hlow
    obtain ⟨b0, hb0, rfl⟩ := hlow
    exact Or.inr ⟨f, hf, b0, hb0, rfl⟩

/-- Lowercasing preserves identifier-character validity. -/
theorem lowerByte_ident {b : Nat} (h : isIdentContinueByte b = true) :
    isIdentContinueByte (lowerByte b) = true := by
  simp only [isIdentContinueByte, decide_eq_true_eq] at h ⊢
  unfold lowerByte
  split <;> omega
/-- Closed form of the identifier returned by the k-th call of a
sequence of calls starting from the initial counter state. -/
theorem callName_eq (frags : Nat → List (List Nat)) (k : Nat) :
    callName frags k
      = (((frags k).map toLowercase).map (fun seg => underscoreByte :: seg)).flatten
          ++ underscoreByte :: natDecimal (k % counterMod) := by
  rw [callName, identsToSnakeCase_fst, counterAfter_eq]
  have hk : k % counterMod % counterMod = k % counterMod := by
    rw [counterMod_eq]
    omega
  rw [hk]

/-- Closed form of the value read by the k-th call. -/
theorem callVal_eq (frags : Nat → List (List Nat)) (k : Nat) :
    callVal frags k = k % counterMod := by
  have h := counterAfter_eq frags k
  rw [callVal, h, counterMod_eq]
  omega

/-- C5 (counterexample): the 65537-th call of a process returns the same
identifier as the first call when both receive the empty fragment
sequence, because the AtomicU16 counter wraps; so the claim that every N
calls yield pairwise-distinct identifiers is false at N = 65537. -/
theorem c5_counterexample :
    callName (fun _ => []) 65536 = callName (fun _ => []) 0 ∧ (65536 : Nat) ≠ 0 := by
  constructor
  · have h1 := callName_eq (fun _ => []) 65536
    have h2 := callName_eq (fun _ => []) 0
    rw [counterMod_eq] at h1 h2
    norm_num at h1 h2
    rw [h1, h2]
  · decide

/-- C5 (amended): within the first 2^16 calls of a process, the returned
identifiers are pairwise distinct, whatever fragment sequences the calls
receive, because the decimal counter suffix after the final separator
determines the call index. -/
theorem c5_amended_distinct (frags : Nat → List (List Nat)) (i j : Nat)
    (hi : i < 2 ^ 16) (hj : j < 2 ^ 16) (hne : i ≠ j) :
    callName frags i ≠ callName frags j := by
  intro h
  rw [callName_eq, callName_eq] at h
  have hmodi : i % counterMod = i := by rw [counterMod_eq]; omega
  have hmodj : j % counterMod = j := by rw [counterMod_eq]; omega
  rw [hmodi, hmodj] at h
  exact hne (append_sep_decimal_inj h)

theorem c5_amended_distinct_witness :
    callName (fun _ => []) 1 ≠ callName (fun _ => []) 2 :=
  c5_amended_distinct (fun _ => []) 1 2 (by norm_num) (by norm_num) (by norm_num)

/-- C6 (counterexample): the counter value appended to the name does not
strictly increase from each call to the next throughout the process: the
call with index 65535 appends 65535 and the next call appends 0. -/
theorem c6_counterexample :
    callVal (fun _ => []) 65535 = 65535 ∧ callVal (fun _ => []) 65536 = 0 ∧
      ¬ callVal (fun _ => []) 65535 < callVal (fun _ => []) 65536 := by
  have h1 := callVal_eq (fun _ => []) 65535
  have h2 := callVal_eq (fun _ => []) 65536
  rw [counterMod_eq] at h1 h2
  norm_num at h1 h2
  exact ⟨h1, h2, by rw [h1, h2]; omega⟩

/-- C6 (amended): the k-th returned identifier is the concatenation, in
order, of a separator followed by each fragment lower-cased, followed by
a separator and the decimal rendering of the counter value k mod 2^16;
the appended counter value strictly increases from each call to the next
as long as the next call index is still below 2^16. -/
theorem c6_amended_concat (frags : Nat → List (List Nat)) (k : Nat) :
    callName frags k
      = (((frags k).map toLowercase).map (fun seg => underscoreByte :: seg)).flatten
          ++ underscoreByte :: natDecimal (k % 2 ^ 16)
    ∧ (k + 1 < 2 ^ 16 → callVal frags k < callVal frags (k + 1)) := by
  constructor
  · rw [callName_eq, counterMod_eq]
    norm_num
  · intro h
    rw [callVal, callVal, counterAfter_eq, counterAfter_eq, counterMod_eq]
    omega

theorem c6_amended_concat_witness :
    callName (fun _ => [[97]]) 3
        = ((([[97]] : List (List Nat)).map toLowercase).map
            (fun seg => underscoreByte :: seg)).flatten
          ++ underscoreByte :: natDecimal (3 % 2 ^ 16)
      ∧ callVal (fun _ => [[97]]) 3 < callVal (fun _ => [[97]]) 4 :=
  ⟨(c6_amended_concat (fun _ => [[97]]) 3).1,
    (c6_amended_concat (fun _ => [[97]]) 3).2 (by norm_num)⟩

/-- The generated name is a valid identifier whenever the fragments
consist of identifier characters.  Shared helper for the claims about
identifier validity. -/
theorem generated_name_valid (frags : List (List Nat)) (counter : Nat)
    (h : ∀ f ∈ frags, ∀ b ∈ f, isIdentContinueByte b = true) :
    isValidIdentStr (identsToSnakeCase frags counter).1 = true := by
  rw [identsToSnakeCase_fst]
  have hdigits : ∀ b ∈ natDecimal (counter % counterMod),
      isIdentContinueByte b = true := by
    intro b hb
    have := natDecimal_mem_digit hb
    simp only [isIdentContinueByte, decide_eq_true_eq]
    omega
  have h95 : isIdentContinueByte underscoreByte = true := by
    simp [isIdentContinueByte, underscoreByte]
  have hflat : ∀ b ∈ ((frags.map toLowercase).map
      (fun seg => underscoreByte :: seg)).flatten, isIdentContinueByte b = true := by
    intro b hb
    rcases mem_flatten_sep hb with rfl | ⟨f, hf, b0, hb0, rfl⟩
    · exact h95
    · exact lowerByte_ident (h f hf b0 hb0)
  cases hJ : ((frags.map toLowercase).map
      (fun seg => underscoreByte :: seg)).flatten with
  | nil =>
    simp only [List.nil_append, isValidIdentStr, Bool.and_eq_true,
      decide_eq_true_eq]
    refine ⟨⟨?_, ?_⟩, ?_⟩
    · simp [isIdentStartByte, underscoreByte]
    · rw [List.all_eq_true]
      intro x hx
      exact hdigits x hx
    · intro hcon
      exact natDecimal_ne_nil _ hcon.2
  | cons b J =>
    obtain ⟨s, t, hfr⟩ : ∃ s t, frags.map toLowercase = s :: t := by
      cases hfr : frags.map toLowercase with
      | nil => rw [hfr] at hJ; simp at hJ
      | cons s t => exact ⟨s, t, rfl⟩
    have hcopy := hJ
    rw [hfr] at hcopy
    simp only [List.map_cons, List.flatten_cons, List.cons_append,
      List.cons.injEq] at hcopy
    have hb : b = underscoreByte := hcopy.1.symm
    subst hb
    have hJmem : ∀ x ∈ J, isIdentContinueByte x = true := by
      intro x hx
      exact hflat x (by rw [hJ]; simp [hx])
    simp only [List.cons_append, isValidIdentStr, Bool.and_eq_true,
      decide_eq_true_eq]
    refine ⟨⟨?_, ?_⟩, ?_⟩
    · simp [isIdentStartByte, underscoreByte]
    · rw [List.all_eq_true]
      intro x hx
      rcases List.mem_append.1 hx with hx1 | hx2
      · exact hJmem x hx1
      · rcases List.mem_cons.1 hx2 with rfl | hx3
        · exact h95
        · exact hdigits x hx3
    · intro hcon
      have := hcon.2
      simp at this

/-- C7: for fragments made of identifier characters (as the strings of
`syn::Ident` values are), the generated name is always a syntactically
valid identifier, whatever the casing of the fragments and whatever
identifier characters they already contain: `Ident::new` never hits its
invalid-identifier failure path. -/
theorem c7_valid_identifier (frags : List (List Nat)) (counter : Nat)
    (h : ∀ f ∈ frags, ∀ b ∈ f, isIdentContinueByte b = true) :
    isValidIdentStr (identsToSnakeCase frags counter).1 = true :=
  generated_name_valid frags counter h

theorem c7_valid_identifier_witness :
    isValidIdentStr (identsToSnakeCase [[66, 97]] 7).1 = true :=
  c7_valid_identifier [[66, 97]] 7 (by decide)

/-- C9: the counter is 16 bits wide and wraps: the value appended by the
k-th call is k mod 2^16, the appended value repeats after 2^16 further
calls, and the stored counter state always fits in 16 bits. -/
theorem c9_counter_wraps (frags : Nat → List (List Nat)) (k : Nat) :
    callVal frags k = k % 2 ^ 16
      ∧ callVal frags (k + 2 ^ 16) = callVal frags k
      ∧ counterAfter frags k < 2 ^ 16 := by
  refine ⟨?_, ?_, ?_⟩
  · rw [callVal, counterAfter_eq, counterMod_eq]
    omega
  · rw [callVal, callVal, counterAfter_eq, counterAfter_eq, counterMod_eq]
    omega
  · rw [counterAfter_eq, counterMod_eq]
    omega

/-- C10: every generated name starts with an underscore; on the empty
fragment sequence the name is exactly an underscore followed by the
decimal digits of the counter value, and that is still a valid
identifier. -/
theorem c10_leading_underscore (frags : List (List Nat)) (counter : Nat) :
    (identsToSnakeCase frags counter).1.head? = some underscoreByte
    ∧ (identsToSnakeCase [] counter).1
        = underscoreByte :: natDecimal (counter % counterMod)
    ∧ isValidIdentStr (identsToSnakeCase [] counter).1 = true := by
  refine ⟨?_, ?_, ?_⟩
  · rw [identsToSnakeCase_fst]
    cases hfr : frags with
    | nil => simp
    | cons f t => simp
  · rw [identsToSnakeCase_fst]
    simp
  · exact generated_name_valid [] counter (by intro f hf; simp at hf)

/-! ## The widget attribute pipeline (src/relm4-macros/src/lib.rs)

Widgets, properties, events, track guards, user blocks and spans are
identified by natural-number tags; generated code is modelled as lists of
abstract statements. -/

/-- Data carried by one widget node of the parsed tree: its (explicit or
generated) name, its non-reactive property setters, its `watch!`-marked
properties, its event connections, its component entries and its optional
`track!` guard, each in declaration order. -/
structure WidgetData where
  name : Nat
  nonReactiveProps : List Nat
  watchedProps : List Nat
  events : List Nat
  components : List Nat
  track : Option Nat
  deriving DecidableEq

/-- The parsed widget tree: a node and its children in declaration
order. -/
inductive WidgetNode : Type where
  | node : WidgetData → List WidgetNode → WidgetNode

/-- One record of the flattened widget list: the node data plus the name
of the parent it is attached into (none for the root). -/
structure FlatWidget where
  data : WidgetData
  parent : Option Nat
  deriving DecidableEq

mutual
/-- Modelled from the spec: `Widgets::get_widget_list` (widgets.rs is not
in the source tree) performs a depth-first traversal producing parents
before children and siblings in declaration order. -/
def flattenNode (par : Option Nat) (t : WidgetNode) : List FlatWidget :=
  match t with
  | .node d cs => ⟨d, par⟩ :: flattenForest (some d.name) cs
termination_by sizeOf t

/-- Depth-first flattening of a list of sibling subtrees. -/
def flattenForest (par : Option Nat) (cs : List WidgetNode) : List FlatWidget :=
  match cs with
  | [] => []
  | c :: rest => flattenNode par c ++ flattenForest par rest
termination_by sizeOf cs
end

/-- The flattened widget list of a tree, `widgets.get_widget_list(&mut
widget_list)` in the source. -/
def widgetList (t : WidgetNode) : List FlatWidget := flattenNode none t

/-- One statement of the generated output. -/
inductive Stmt : Type where
  | letConstruct : Nat → Stmt
  | assignProp : Nat → Nat → Stmt
  | attach : Nat → Nat → Stmt
  | connect : Nat → Nat → Stmt
  | watchUpdate : Nat → Nat → Stmt
  | trackUpdate : Nat → Nat → Stmt
  | componentStmt : Nat → Nat → Stmt
  | connectComponentStmt : Nat → Nat → Stmt
  | userBlock : Nat → Stmt
  | returnStruct : Stmt
  deriving DecidableEq

/-- The widget names referenced (read) by a statement.  A construction
binds its name rather than referencing it, and user blocks are opaque. -/
def Stmt.refs : Stmt → List Nat
  | .letConstruct _ => []
  | .assignProp w _ => [w]
  | .attach p c => [p, c]
  | .connect w _ => [w]
  | .watchUpdate w _ => [w]
  | .trackUpdate w _ => [w]
  | .componentStmt w _ => [w]
  | .connectComponentStmt w _ => [w]
  | .userBlock _ => []
  | .returnStruct => []

/-- The construction binding `let name = constructor;` of a widget,
extended onto `init_stream` by the emitter loop. -/
def constructStmt (fw : FlatWidget) : Stmt := .letConstruct fw.data.name

/-- Modelled from the spec: `property_assign_stream` (widgets.rs) emits
one one-shot setter call per non-reactive property in declaration order,
plus the attachment of the widget into its parent. -/
def propertyStmts (fw : FlatWidget) : List Stmt :=
  fw.data.nonReactiveProps.map (Stmt.assignProp fw.data.name) ++
    (match fw.parent with
     | some p => [Stmt.attach p fw.data.name]
     | none => [])

/-- Modelled from the spec: `connect_stream` (widgets.rs) emits one
closure registration per event entry. -/
def connectStmts (fw : FlatWidget) : List Stmt :=
  fw.data.events.map (Stmt.connect fw.data.name)

/-- Modelled from the spec: `view_stream` (widgets.rs) emits one
recomputation per `watch!`-marked property. -/
def viewStmts (fw : FlatWidget) : List Stmt :=
  fw.data.watchedProps.map (Stmt.watchUpdate fw.data.name)

/-- Modelled from the spec: `track_stream` (widgets.rs) emits one
guard-conditioned update per node carrying a `track!` expression. -/
def trackStmts (fw : FlatWidget) : List Stmt :=
  match fw.data.track with
  | some g => [Stmt.trackUpdate fw.data.name g]
  | none => []

/-- Modelled from the spec: `component_stream` (widgets.rs). -/
def componentStmts (fw : FlatWidget) : List Stmt :=
  fw.data.components.map (Stmt.componentStmt fw.data.name)

/-- Modelled from the spec: `connect_component_stream` (widgets.rs). -/
def connectComponentStmts (fw : FlatWidget) : List Stmt :=
  fw.data.components.map (Stmt.connectComponentStmt fw.data.name)

/-- The emitter loop of lib.rs lines 206-229 extends each stream once per
widget of the flattened list, in list order. -/
def initStream (ws : List FlatWidget) : List Stmt := ws.map constructStmt

def propertyStream (ws : List FlatWidget) : List Stmt :=
  (ws.map propertyStmts).flatten

def connectStream (ws : List FlatWidget) : List Stmt :=
  (ws.map connectStmts).flatten

def viewStream (ws : List FlatWidget) : List Stmt :=
  (ws.map viewStmts).flatten

def trackStream (ws : List FlatWidget) : List Stmt :=
  (ws.map trackStmts).flatten

def componentStream (ws : List FlatWidget) : List Stmt :=
  (ws.map componentStmts).flatten

def connectComponentStream (ws : List FlatWidget) : List Stmt :=
  (ws.map connectComponentStmts).flatten

/-- The five optional user-supplied lifecycle blocks returned by
`Funcs::new`, each an opaque token stream identified by a tag. -/
structure Funcs where
  pre_init : Option Nat
  post_init : Option Nat
  pre_connect_components : Option Nat
  post_connect_components : Option Nat
  manual_view : Option Nat
  deriving DecidableEq

/-- Splicing of an optional user block: an absent block contributes no
statement, a present block is inserted verbatim. -/
def optBlock : Option Nat → List Stmt
  | some b => [Stmt.userBlock b]
  | none => []

/-- The body of the generated `init_view`, following the `quote!` layout
of lib.rs lines 257-268: `pre_init`, then `init_stream`,
`property_stream`, `connect_stream`, `post_init` and the returned struct
value. -/
def initViewBody (f : Funcs) (ws : List FlatWidget) : List Stmt :=
  optBlock f.pre_init ++ initStream ws ++ propertyStream ws ++ connectStream ws
    ++ optBlock f.post_init ++ [Stmt.returnStruct]

/-- The body of the generated `connect_components` (lib.rs lines
270-275). -/
def connectComponentsBody (f : Funcs) (ws : List FlatWidget) : List Stmt :=
  optBlock f.pre_connect_components ++ componentStream ws
    ++ connectComponentStream ws ++ optBlock f.post_connect_components

/-- The body of the generated `view` (lib.rs lines 282-287):
`manual_view`, then `view_stream`, then `track_stream`. -/
def viewBody (f : Funcs) (ws : List FlatWidget) : List Stmt :=
  optBlock f.manual_view ++ viewStream ws ++ trackStream ws

/-! ### The staged pipeline of `widget` and model-type resolution -/

/-- A compiler diagnostic carrying the originating source span (an
abstract tag) and its message. -/
structure CompileError where
  span : Nat
  msg : String
  deriving DecidableEq

/-- One generic argument of the trait reference. -/
inductive GenericArgument : Type where
  | tyArg : Nat → GenericArgument
  | lifetimeArg : Nat → GenericArgument
  | constArg : Nat → GenericArgument
  deriving DecidableEq

/-- The type argument carried by a generic argument, if it is one. -/
def GenericArgument.tyArg? : GenericArgument → Option Nat
  | .tyArg t => some t
  | _ => none

/-- An angle-bracketed generic argument list with its own span. -/
structure GenericArgsList where
  span : Nat
  args : List GenericArgument
  deriving DecidableEq

/-- The trait reference of the attributed `impl` block: the span of its
path segments and its optional trailing angle-bracketed argument list
(`PathArguments::AngleBracketed` or not). -/
structure TraitRef where
  segmentsSpan : Nat
  generics : Option GenericArgsList
  deriving DecidableEq

/-- The pair of types extracted by model-type resolution. -/
structure ModelTypes where
  model : Nat
  parent_model : Nat
  deriving DecidableEq

/-- lib.rs lines 115-127: the trait reference must carry an
angle-bracketed generic list, otherwise the macro returns a compile
error attributed to the span of the trait path segments. -/
def traitGenerics (t : TraitRef) : Except CompileError GenericArgsList :=
  match t.generics with
  | some g => .ok g
  | none =>
    .error ⟨t.segmentsSpan, "Expected generic parameters for model and parent model"⟩

/-- Modelled from the spec: `ModelTypes::new` (types.rs is not in the
source tree) extracts the first two type arguments in positional order
and fails, with an error attributed to the argument-list span, when fewer
than two type arguments are present. -/
def ModelTypes.new (g : GenericArgsList) : Except CompileError ModelTypes :=
  match g.args.filterMap GenericArgument.tyArg? with
  | m :: p :: _ => .ok ⟨m, p⟩
  | _ => .error ⟨g.span, "Expected two generic type parameters"⟩

/-- lib.rs lines 150-169: the model type is read from the first generic
argument; if it is not a type argument the macro returns a compile error
attributed to the span of the argument list. -/
def modelTyStage (g : GenericArgsList) : Except CompileError Nat :=
  match g.args.head? with
  | some (.tyArg t) => .ok t
  | _ =>
    .error ⟨g.span, "Expected generic parameters for the model and the parent model"⟩

/-- Model-type resolution as the claims see it: the angle-bracket check
of lib.rs followed by `ModelTypes::new`. -/
def resolveModelTypes (t : TraitRef) : Except CompileError ModelTypes :=
  match traitGenerics t with
  | .error e => .error e
  | .ok g => ModelTypes.new g

/-- Result of `Macros::new`: the parsed widget tree and the optional
additional fields. -/
structure MacrosData where
  widgets : WidgetNode
  additional_fields : Option (List Nat)

/-- Result of parsing the attributed `impl` block (`ItemImpl`): its trait
reference, and the outcomes of parsing its inner view macro and its
lifecycle functions.  A malformed widget block or a malformed event line
surfaces as the error of `macrosResult`; malformed lifecycle functions
surface as the error of `funcsResult`. -/
structure ItemImplData where
  traitRef : TraitRef
  macrosResult : Except CompileError MacrosData
  funcsResult : Except CompileError Funcs

/-- The code generated on the success path: the struct fields and the
three method bodies. -/
structure Generated where
  structFields : List Nat
  initView : List Stmt
  connectComponents : List Stmt
  view : List Stmt

/-- The entire output token stream of the macro: either a single compile
error diagnostic or the generated struct and impl. -/
inductive WidgetOutput : Type where
  | compileError : CompileError → WidgetOutput
  | generated : Generated → WidgetOutput

/-- The emission performed once every stage has succeeded: one struct
field per flattened widget plus the additional fields, and the three
bodies. -/
def emitGenerated (m : MacrosData) (f : Funcs) : Generated :=
  let ws := widgetList m.widgets
  { structFields := ws.map (fun fw => fw.data.name) ++ m.additional_fields.getD []
  , initView := initViewBody f ws
  , connectComponents := connectComponentsBody f ws
  , view := viewBody f ws }

/-- The `widget` attribute function (lib.rs lines 107-292): each stage
returns the stage's compile error immediately, before any emitter stream
is produced; only when all stages succeed is code emitted. -/
def widget (attrs : Except CompileError Unit)
    (input : Except CompileError ItemImplData) : WidgetOutput :=
  match attrs with
  | .error e => .compileError e
  | .ok _ =>
    match input with
    | .error e => .compileError e
    | .ok data =>
      match traitGenerics data.traitRef with
      | .error e => .compileError e
      | .ok g =>
        match ModelTypes.new g with
        | .error e => .compileError e
        | .ok _mt =>
          match modelTyStage g with
          | .error e => .compileError e
          | .ok _ty =>
            match data.macrosResult with
            | .error e => .compileError e
            | .ok m =>
              match data.funcsResult with
              | .error e => .compileError e
              | .ok f => .generated (emitGenerated m f)

/-! ### Ordering machinery -/

/-- Locating an element across an append: it lies in the left part, or
the whole left part is a prefix of the position. -/
theorem append_split {α : Type} {E F xs ys : List α} {fw : α}
    (h : E ++ F = xs ++ fw :: ys) :
    (∃ e2, E = xs ++ fw :: e2) ∨ ∃ xs2, xs = E ++ xs2 ∧ F = xs2 ++ fw :: ys := by
  rcases List.append_eq_append_iff.1 h with ⟨a2, hxs, hF⟩ | ⟨c2, hE, hcons⟩
  · exact Or.inr ⟨a2, hxs, hF⟩
  · cases c2 with
    | nil =>
      right
      refine ⟨[], by simpa using hE.symm ▸ (by simp), ?_⟩
      · simpa using hcons.symm
    | cons x c3 =>
      left
      simp only [List.cons_append, List.cons.injEq] at hcons
      obtain ⟨hx, hys⟩ := hcons
      rw [← hx] at hE
      exact ⟨c3, hE⟩

/-- If the elements of `A` all satisfy `P` and `s` does not, an occurrence
of `s` in `A ++ B` lies in `B`, with all of `A` before it. -/
theorem append_locate {α : Type} (P : α → Prop) {A B xs ys : List α} {s : α}
    (h : A ++ B = xs ++ s :: ys) (hA : ∀ a ∈ A, P a) (hs : ¬ P s) :
    ∃ bs, xs = A ++ bs ∧ ∃ cs, B = bs ++ s :: cs := by
  rcases append_split h with ⟨e2, hE⟩ | ⟨xs2, h1, h2⟩
  · exact absurd (hA s (by rw [hE]; simp)) hs
  · exact ⟨xs2, h1, ys, h2⟩

/-- In a flattened forest, the parent of every record is either the
parent passed for the whole forest or the name of an earlier record:
parents are flattened before their children. -/
theorem flattenForest_parent_aux :
    ∀ (n : Nat) (cs : List WidgetNode), sizeOf cs ≤ n →
      ∀ (par : Option Nat) (xs : List FlatWidget) (fw : FlatWidget)
        (ys : List FlatWidget),
        flattenForest par cs = xs ++ fw :: ys →
        fw.parent = par ∨ ∃ g ∈ xs, fw.parent = some g.data.name := by
  intro n
  induction n with
  | zero =>
    intro cs hcs par xs fw ys h
    cases cs with
    | nil =>
      simp only [flattenForest] at h
      exact absurd h (by simp)
    | cons c rest =>
      simp only [List.cons.sizeOf_spec] at hcs
      omega
  | succ n ih =>
    intro cs hcs par xs fw ys h
    cases cs with
    | nil =>
      simp only [flattenForest] at h
      exact absurd h (by simp)
    | cons c rest =>
      simp only [flattenForest] at h
      rcases append_split h with ⟨e2, hE⟩ | ⟨xs2, h1, h2⟩
      · cases c with
        | node d ds =>
          simp only [flattenNode] at hE
          cases xs with
          | nil =>
            simp only [List.nil_append, List.cons.injEq] at hE
            left
            rw [← hE.1]
          | cons x xs1 =>
            simp only [List.cons_append, List.cons.injEq] at hE
            obtain ⟨hx, hrest⟩ := hE
            have hsz : sizeOf ds ≤ n := by
              simp only [List.cons.sizeOf_spec, WidgetNode.node.sizeOf_spec] at hcs
              omega
            rcases ih ds hsz (some d.name) xs1 fw e2 hrest with hpar | ⟨g, hg, hgn⟩
            · right
              refine ⟨x, by simp, ?_⟩
              rw [hpar, ← hx]
            · right
              exact ⟨g, by simp [hg], hgn⟩
      · have hsz : sizeOf rest ≤ n := by
          simp only [List.cons.sizeOf_spec] at hcs
          omega
        rcases ih rest hsz par xs2 fw ys h2 with hpar | ⟨g, hg, hgn⟩
        · exact Or.inl hpar
        · right
          exact ⟨g, by rw [h1]; simp [hg], hgn⟩

/-- In the flattened list of a whole tree, every record with a parent
pointer is preceded by a record carrying that name: the flattener
produces parents before children. -/
theorem widgetList_parent_before {t : WidgetNode} {xs ys : List FlatWidget}
    {fw : FlatWidget} {p : Nat} (hdec : widgetList t = xs ++ fw :: ys)
    (hp : fw.parent = some p) : ∃ g ∈ xs, g.data.name = p := by
  cases t with
  | node d cs =>
    rw [widgetList] at hdec
    simp only [flattenNode] at hdec
    cases xs with
    | nil =>
      simp only [List.nil_append, List.cons.injEq] at hdec
      rw [← hdec.1] at hp
      simp at hp
    | cons x xs1 =>
      simp only [List.cons_append, List.cons.injEq] at hdec
      obtain ⟨hx, hrest⟩ := hdec
      rcases flattenForest_parent_aux (sizeOf cs) cs le_rfl (some d.name)
          xs1 fw ys hrest with hpar | ⟨g, hg, hgn⟩
      · rw [hp] at hpar
        injection hpar with h'
        refine ⟨x, by simp, ?_⟩
        rw [← hx, h']
      · rw [hp] at hgn
        injection hgn with h'
        exact ⟨g, by simp [hg], h'.symm⟩

/-- Every parent pointer of the flattened list names some record of the
list. -/
theorem widgetList_parent_mem {t : WidgetNode} {fw : FlatWidget} {p : Nat}
    (hmem : fw ∈ widgetList t) (hp : fw.parent = some p) :
    ∃ g ∈ widgetList t, g.data.name = p := by
  obtain ⟨xs, ys, hdec⟩ := List.append_of_mem hmem
  obtain ⟨g, hg, hgn⟩ := widgetList_parent_before hdec hp
  exact ⟨g, by rw [hdec]; simp [hg], hgn⟩

/-! ### Stream membership lemmas -/

theorem mem_initStream {ws : List FlatWidget} {s : Stmt}
    (h : s ∈ initStream ws) : ∃ fw ∈ ws, s = Stmt.letConstruct fw.data.name := by
  rw [initStream] at h
  obtain ⟨fw, hfw, rfl⟩ := List.mem_map.1 h
  exact ⟨fw, hfw, rfl⟩

theorem letConstruct_mem_initStream {ws : List FlatWidget} {fw : FlatWidget}
    (h : fw ∈ ws) : Stmt.letConstruct fw.data.name ∈ initStream ws :=
  List.mem_map.2 ⟨fw, h, rfl⟩

theorem mem_propertyStream {ws : List FlatWidget} {s : Stmt}
    (h : s ∈ propertyStream ws) : ∃ fw ∈ ws, s ∈ propertyStmts fw := by
  rw [propertyStream, List.mem_flatten] at h
  obtain ⟨l, hl, hs⟩ := h
  obtain ⟨fw, hfw, rfl⟩ := List.mem_map.1 hl
  exact ⟨fw, hfw, hs⟩

theorem propertyStmts_cases {fw : FlatWidget} {s : Stmt}
    (h : s ∈ propertyStmts fw) :
    (∃ k, s = Stmt.assignProp fw.data.name k)
      ∨ ∃ p, fw.parent = some p ∧ s = Stmt.attach p fw.data.name := by
  rw [propertyStmts] at h
  rcases List.mem_append.1 h with h1 | h2
  · obtain ⟨k, _, rfl⟩ := List.mem_map.1 h1
    exact Or.inl ⟨k, rfl⟩
  · cases hpar : fw.parent with
    | none => rw [hpar] at h2; simp at h2
    | some p =>
      rw [hpar] at h2
      simp only [List.mem_singleton] at h2
      exact Or.inr ⟨p, rfl, h2⟩

theorem mem_connectStream {ws : List FlatWidget} {s : Stmt}
    (h : s ∈ connectStream ws) :
    ∃ fw ∈ ws, ∃ sig, s = Stmt.connect fw.data.name sig := by
  rw [connectStream, List.mem_flatten] at h
  obtain ⟨l, hl, hs⟩ := h
  obtain ⟨fw, hfw, rfl⟩ := List.mem_map.1 hl
  rw [connectStmts] at hs
  obtain ⟨sig, _, rfl⟩ := List.mem_map.1 hs
  exact ⟨fw, hfw, sig, rfl⟩

theorem refs_initStream_nil {ws : List FlatWidget} {s : Stmt}
    (h : s ∈ initStream ws) : s.refs = [] := by
  obtain ⟨fw, _, rfl⟩ := mem_initStream h
  rfl

theorem refs_optBlock_nil {o : Option Nat} {s : Stmt} (h : s ∈ optBlock o) :
    s.refs = [] := by
  cases o with
  | none => simp [optBlock] at h
  | some b =>
    simp only [optBlock, List.mem_singleton] at h
    rw [h]
    rfl

/-! ### C1: constructions precede all references -/

/-- C1: in the generated `init_view` body, every statement that
references a widget is preceded by that widget's construction binding
(part one), and each widget's construction precedes the construction of
every one of its children (part two): the emitted order is all of
`init_stream` in flatten order, then `property_stream`, then
`connect_stream`. -/
theorem c1_construction_precedes_references (f : Funcs) (t : WidgetNode) :
    (∀ xs s ys, initViewBody f (widgetList t) = xs ++ s :: ys →
        ∀ n ∈ s.refs, Stmt.letConstruct n ∈ xs)
    ∧ (∀ xs fw ys, widgetList t = xs ++ fw :: ys → ∀ p, fw.parent = some p →
        ∃ as bs cs, initViewBody f (widgetList t)
          = as ++ Stmt.letConstruct p :: bs
              ++ Stmt.letConstruct fw.data.name :: cs) := by
  constructor
  · intro xs s ys hdec n hn
    have hbody : (optBlock f.pre_init ++ initStream (widgetList t))
        ++ (propertyStream (widgetList t) ++ connectStream (widgetList t)
            ++ optBlock f.post_init ++ [Stmt.returnStruct])
        = xs ++ s :: ys := by
      rw [← hdec, initViewBody]
      simp [List.append_assoc]
    have hA : ∀ a ∈ optBlock f.pre_init ++ initStream (widgetList t),
        a.refs = [] := by
      intro a ha
      rcases List.mem_append.1 ha with h1 | h2
      · exact refs_optBlock_nil h1
      · exact refs_initStream_nil h2
    have hs : ¬ s.refs = [] := by
      intro hcon
      rw [hcon] at hn
      simp at hn
    obtain ⟨bs, hxs, cs, hB⟩ := append_locate (fun a => a.refs = []) hbody hA hs
    -- s lies in the property/connect/post/return region
    have hsmem : s ∈ propertyStream (widgetList t) ++ connectStream (widgetList t)
        ++ optBlock f.post_init ++ [Stmt.returnStruct] := by
      rw [hB]
      simp
    have hname : Stmt.letConstruct n ∈ initStream (widgetList t) := by
      rcases List.mem_append.1 hsmem with hs3 | hs4
      · rcases List.mem_append.1 hs3 with hs5 | hs6
        · rcases List.mem_append.1 hs5 with hs7 | hs8
          · -- property stream
            obtain ⟨fw, hfw, hfs⟩ := mem_propertyStream hs7
            rcases propertyStmts_cases hfs with ⟨k, rfl⟩ | ⟨p, hp, rfl⟩
            · simp only [Stmt.refs, List.mem_singleton] at hn
              rw [hn]
              exact letConstruct_mem_initStream hfw
            · simp only [Stmt.refs, List.mem_cons, List.mem_singleton] at hn
              rcases hn with rfl | hn2
              · obtain ⟨g, hg, hgn⟩ := widgetList_parent_mem hfw hp
                rw [← hgn]
                exact letConstruct_mem_initStream hg
              · simp only [List.not_mem_nil, or_false] at hn2
                rw [hn2]
                exact letConstruct_mem_initStream hfw
          · -- connect stream
            obtain ⟨fw, hfw, sig, rfl⟩ := mem_connectStream hs8
            simp only [Stmt.refs, List.mem_singleton] at hn
            rw [hn]
            exact letConstruct_mem_initStream hfw
        · -- post_init block has no references
          rw [refs_optBlock_nil hs6] at hn
          simp at hn
      · -- the returned struct value
        simp only [List.mem_singleton] at hs4
        rw [hs4] at hn
        simp [Stmt.refs] at hn
    rw [hxs]
    exact List.mem_append_left _ (List.mem_append_right _ hname)
  · intro xs fw ys hdec p hp
    obtain ⟨g, hg, hgn⟩ := widgetList_parent_before hdec hp
    obtain ⟨x1, x2, hxdec⟩ := List.append_of_mem hg
    refine ⟨optBlock f.pre_init ++ x1.map constructStmt,
      x2.map constructStmt,
      ys.map constructStmt ++ propertyStream (widgetList t)
        ++ connectStream (widgetList t) ++ optBlock f.post_init
        ++ [Stmt.returnStruct], ?_⟩
    have hinit : initStream (widgetList t)
        = x1.map constructStmt
            ++ Stmt.letConstruct p :: x2.map constructStmt
            ++ Stmt.letConstruct fw.data.name :: ys.map constructStmt := by
      rw [initStream, hdec, hxdec]
      simp only [List.map_append, List.map_cons]
      rw [← hgn]
      simp [constructStmt]
    rw [initViewBody, hinit]
    simp [List.append_assoc]

theorem c1_construction_precedes_references_witness :
    Stmt.letConstruct 1 ∈ [Stmt.letConstruct 0, Stmt.letConstruct 1,
      Stmt.assignProp 0 10] :=
  (c1_construction_precedes_references ⟨none, none, none, none, none⟩
      (WidgetNode.node ⟨0, [10], [], [], [], none⟩
        [WidgetNode.node ⟨1, [], [], [], [], none⟩ []])).1
    [Stmt.letConstruct 0, Stmt.letConstruct 1, Stmt.assignProp 0 10]
    (Stmt.attach 0 1) [Stmt.returnStruct]
    (by simp [initViewBody, widgetList, flattenNode, flattenForest, initStream,
      propertyStream, connectStream, propertyStmts, connectStmts, constructStmt,
      optBlock])
    1 (by simp [Stmt.refs])

/-! ### More stream shape lemmas -/

theorem mem_viewStream {ws : List FlatWidget} {s : Stmt}
    (h : s ∈ viewStream ws) :
    ∃ fw ∈ ws, ∃ p ∈ fw.data.watchedProps, s = Stmt.watchUpdate fw.data.name p := by
  rw [viewStream, List.mem_flatten] at h
  obtain ⟨l, hl, hs⟩ := h
  obtain ⟨fw, hfw, rfl⟩ := List.mem_map.1 hl
  rw [viewStmts] at hs
  obtain ⟨p, hp, rfl⟩ := List.mem_map.1 hs
  exact ⟨fw, hfw, p, hp, rfl⟩

theorem mem_trackStream {ws : List FlatWidget} {s : Stmt}
    (h : s ∈ trackStream ws) :
    ∃ fw ∈ ws, ∃ g, fw.data.track = some g ∧ s = Stmt.trackUpdate fw.data.name g := by
  rw [trackStream, List.mem_flatten] at h
  obtain ⟨l, hl, hs⟩ := h
  obtain ⟨fw, hfw, rfl⟩ := List.mem_map.1 hl
  rw [trackStmts] at hs
  cases htr : fw.data.track with
  | none => rw [htr] at hs; simp at hs
  | some g =>
    rw [htr] at hs
    simp only [List.mem_singleton] at hs
    exact ⟨fw, hfw, g, htr, hs⟩

theorem mem_componentStream {ws : List FlatWidget} {s : Stmt}
    (h : s ∈ componentStream ws) :
    ∃ fw ∈ ws, ∃ c, s = Stmt.componentStmt fw.data.name c := by
  rw [componentStream, List.mem_flatten] at h
  obtain ⟨l, hl, hs⟩ := h
  obtain ⟨fw, hfw, rfl⟩ := List.mem_map.1 hl
  rw [componentStmts] at hs
  obtain ⟨c, _, rfl⟩ := List.mem_map.1 hs
  exact ⟨fw, hfw, c, rfl⟩

theorem mem_connectComponentStream {ws : List FlatWidget} {s : Stmt}
    (h : s ∈ connectComponentStream ws) :
    ∃ fw ∈ ws, ∃ c, s = Stmt.connectComponentStmt fw.data.name c := by
  rw [connectComponentStream, List.mem_flatten] at h
  obtain ⟨l, hl, hs⟩ := h
  obtain ⟨fw, hfw, rfl⟩ := List.mem_map.1 hl
  rw [connectComponentStmts] at hs
  obtain ⟨c, _, rfl⟩ := List.mem_map.1 hs
  exact ⟨fw, hfw, c, rfl⟩

/-- No widget stream ever contains a user block: user blocks enter the
output only through the splicing of `Funcs`. -/
theorem userBlock_count_initStream (ws : List FlatWidget) (b : Nat) :
    (initStream ws).count (Stmt.userBlock b) = 0 := by
  rw [List.count_eq_zero]
  intro h
  obtain ⟨fw, _, hfs⟩ := mem_initStream h
  cases hfs

theorem userBlock_count_propertyStream (ws : List FlatWidget) (b : Nat) :
    (propertyStream ws).count (Stmt.userBlock b) = 0 := by
  rw [List.count_eq_zero]
  intro h
  obtain ⟨fw, _, hfs⟩ := mem_propertyStream h
  rcases propertyStmts_cases hfs with ⟨k, hk⟩ | ⟨p, _, hk⟩ <;> cases hk

theorem userBlock_count_connectStream (ws : List FlatWidget) (b : Nat) :
    (connectStream ws).count (Stmt.userBlock b) = 0 := by
  rw [List.count_eq_zero]
  intro h
  obtain ⟨fw, _, sig, hfs⟩ := mem_connectStream h
  cases hfs

theorem userBlock_count_viewStream (ws : List FlatWidget) (b : Nat) :
    (viewStream ws).count (Stmt.userBlock b) = 0 := by
  rw [List.count_eq_zero]
  intro h
  obtain ⟨fw, _, p, _, hfs⟩ := mem_viewStream h
  cases hfs

theorem userBlock_count_trackStream (ws : List FlatWidget) (b : Nat) :
    (trackStream ws).count (Stmt.userBlock b) = 0 := by
  rw [List.count_eq_zero]
  intro h
  obtain ⟨fw, _, g, _, hfs⟩ := mem_trackStream h
  cases hfs

theorem userBlock_count_componentStream (ws : List FlatWidget) (b : Nat) :
    (componentStream ws).count (Stmt.userBlock b) = 0 := by
  rw [List.count_eq_zero]
  intro h
  obtain ⟨fw, _, c, hfs⟩ := mem_componentStream h
  cases hfs

theorem userBlock_count_connectComponentStream (ws : List FlatWidget) (b : Nat) :
    (connectComponentStream ws).count (Stmt.userBlock b) = 0 := by
  rw [List.count_eq_zero]
  intro h
  obtain ⟨fw, _, c, hfs⟩ := mem_connectComponentStream h
  cases hfs

/-- Count of a user block in an optional block splice. -/
theorem userBlock_count_optBlock_ne {o : Option Nat} {b : Nat}
    (h : o ≠ some b) : (optBlock o).count (Stmt.userBlock b) = 0 := by
  cases o with
  | none => rfl
  | some b2 =>
    rw [List.count_eq_zero]
    intro hmem
    simp only [optBlock, List.mem_singleton, Stmt.userBlock.injEq] at hmem
    exact h (by rw [hmem])

/-! ### C8: verbatim splicing of the lifecycle blocks -/

/-- C8: each user-supplied lifecycle block is spliced unaltered at its
one fixed position: `pre_init` first in `init_view` before any widget
construction; `post_init` after all signal connections and directly
before the returned struct value; `pre_connect_components` first in
`connect_components`; `post_connect_components` last in
`connect_components`; `manual_view` first in `view` before any reactive
update; and a spliced block occurs exactly once. -/
theorem c8_lifecycle_blocks (f : Funcs) (ws : List FlatWidget) (b : Nat) :
    (f.pre_init = some b →
      (initViewBody f ws).head? = some (Stmt.userBlock b)
      ∧ initViewBody f ws
          = Stmt.userBlock b :: (initStream ws ++ propertyStream ws
              ++ connectStream ws ++ optBlock f.post_init
              ++ [Stmt.returnStruct]))
    ∧ (f.post_init = some b →
      initViewBody f ws
        = optBlock f.pre_init ++ initStream ws ++ propertyStream ws
            ++ connectStream ws ++ [Stmt.userBlock b, Stmt.returnStruct])
    ∧ (f.pre_connect_components = some b →
      (connectComponentsBody f ws).head? = some (Stmt.userBlock b))
    ∧ (f.post_connect_components = some b →
      connectComponentsBody f ws
        = (optBlock f.pre_connect_components ++ componentStream ws
            ++ connectComponentStream ws) ++ [Stmt.userBlock b])
    ∧ (f.manual_view = some b →
      viewBody f ws = Stmt.userBlock b :: (viewStream ws ++ trackStream ws))
    ∧ (f.pre_init = some b → f.post_init ≠ some b →
      (initViewBody f ws).count (Stmt.userBlock b) = 1)
    ∧ (f.manual_view = some b →
      (viewBody f ws).count (Stmt.userBlock b) = 1) := by
  refine ⟨?_, ?_, ?_, ?_, ?_, ?_, ?_⟩
  · intro h
    constructor
    · rw [initViewBody, h]
      rfl
    · rw [initViewBody, h]
      simp [optBlock]
  · intro h
    rw [initViewBody, h]
    simp [optBlock]
  · intro h
    rw [connectComponentsBody, h]
    rfl
  · intro h
    rw [connectComponentsBody, h]
    simp [optBlock]
  · intro h
    rw [viewBody, h]
    simp [optBlock]
  · intro h1 h2
    rw [initViewBody, h1]
    simp only [List.count_append]
    rw [userBlock_count_initStream, userBlock_count_propertyStream,
      userBlock_count_connectStream, userBlock_count_optBlock_ne h2]
    simp [optBlock]
  · intro h
    rw [viewBody, h]
    simp only [List.count_append]
    rw [userBlock_count_viewStream, userBlock_count_trackStream]
    simp [optBlock]

theorem c8_lifecycle_blocks_witness :
    (initViewBody ⟨some 1, some 2, some 3, some 4, some 5⟩ []).count
        (Stmt.userBlock 1) = 1
    ∧ (viewBody ⟨some 1, some 2, some 3, some 4, some 5⟩ []).head?
        = some (Stmt.userBlock 5) :=
  ⟨(c8_lifecycle_blocks ⟨some 1, some 2, some 3, some 4, some 5⟩ [] 1).2.2.2.2.2.1
      rfl (by decide),
    by
      rw [(c8_lifecycle_blocks ⟨some 1, some 2, some 3, some 4, some 5⟩ [] 5).2.2.2.2.1
        rfl]
      rfl⟩

/-! ### C2: failures return a single diagnostic before emission -/

/-- C2: whenever any parsing or resolution stage fails — attribute
parsing, `ItemImpl` parsing, the missing generic list, `ModelTypes::new`,
the model-type extraction, `Macros::new` (malformed widget block or event
line) or `Funcs::new` — the whole output of `widget` is the single
compile-error diagnostic of the first failing stage, carrying that
stage's span, and no generated code is produced. -/
theorem c2_failure_single_diagnostic (a : Except CompileError Unit)
    (inp : Except CompileError ItemImplData) :
    (∀ e, a = .error e → widget a inp = .compileError e)
    ∧ (∀ e, a = .ok () → inp = .error e → widget a inp = .compileError e)
    ∧ (∀ d, a = .ok () → inp = .ok d → d.traitRef.generics = none →
        widget a inp = .compileError
          ⟨d.traitRef.segmentsSpan,
            "Expected generic parameters for model and parent model"⟩)
    ∧ (∀ d g e, a = .ok () → inp = .ok d → d.traitRef.generics = some g →
        ModelTypes.new g = .error e → widget a inp = .compileError e)
    ∧ (∀ d g mt e, a = .ok () → inp = .ok d → d.traitRef.generics = some g →
        ModelTypes.new g = .ok mt → modelTyStage g = .error e →
        widget a inp = .compileError e)
    ∧ (∀ d g mt ty e, a = .ok () → inp = .ok d → d.traitRef.generics = some g →
        ModelTypes.new g = .ok mt → modelTyStage g = .ok ty →
        d.macrosResult = .error e → widget a inp = .compileError e)
    ∧ (∀ d g mt ty m e, a = .ok () → inp = .ok d → d.traitRef.generics = some g →
        ModelTypes.new g = .ok mt → modelTyStage g = .ok ty →
        d.macrosResult = .ok m → d.funcsResult = .error e →
        widget a inp = .compileError e)
    ∧ (∀ e gen, widget a inp = .compileError e →
        widget a inp ≠ .generated gen) := by
  refine ⟨?_, ?_, ?_, ?_, ?_, ?_, ?_, ?_⟩
  · intro e h
    rw [h]
    rfl
  · intro e h1 h2
    rw [h1, h2]
    rfl
  · intro d h1 h2 h3
    subst h1
    subst h2
    simp [widget, traitGenerics, h3]
  · intro d g e h1 h2 h3 h4
    subst h1
    subst h2
    simp [widget, traitGenerics, h3, h4]
  · intro d g mt e h1 h2 h3 h4 h5
    subst h1
    subst h2
    simp [widget, traitGenerics, h3, h4, h5]
  · intro d g mt ty e h1 h2 h3 h4 h5 h6
    subst h1
    subst h2
    simp [widget, traitGenerics, h3, h4, h5, h6]
  · intro d g mt ty m e h1 h2 h3 h4 h5 h6 h7
    subst h1
    subst h2
    simp [widget, traitGenerics, h3, h4, h5, h6, h7]
  · intro e gen h
    rw [h]
    simp

theorem c2_failure_single_diagnostic_witness :
    widget (.ok ()) (.ok ⟨⟨3, none⟩,
        .ok ⟨WidgetNode.node ⟨0, [], [], [], [], none⟩ [], none⟩,
        .ok ⟨none, none, none, none, none⟩⟩)
      = .compileError
          ⟨3, "Expected generic parameters for model and parent model"⟩ :=
  (c2_failure_single_diagnostic _ _).2.2.1 _ rfl rfl rfl

/-! ### C3: model-type resolution and its span attribution -/

/-- `ModelTypes::new` fails when fewer than two type arguments are
present. -/
theorem ModelTypes_new_short {g : GenericArgsList}
    (h : (g.args.filterMap GenericArgument.tyArg?).length < 2) :
    ModelTypes.new g = .error ⟨g.span, "Expected two generic type parameters"⟩ := by
  unfold ModelTypes.new
  split
  · rename_i m p rest heq
    rw [heq] at h
    simp only [List.length_cons] at h
    omega
  · rfl

/-- `ModelTypes::new` extracts the first two type arguments in positional
order. -/
theorem ModelTypes_new_ok {g : GenericArgsList} {m p : Nat} {rest : List Nat}
    (h : g.args.filterMap GenericArgument.tyArg? = m :: p :: rest) :
    ModelTypes.new g = .ok ⟨m, p⟩ := by
  unfold ModelTypes.new
  rw [h]

/-- C3 (counterexample): for a trait reference with no angle-bracketed
generic-argument list at all, resolution fails with the error attributed
to the span of the trait path segments (here 7), while no argument list —
and hence no argument-list span — exists; the claim that the error is
attributed to the argument-list span is false for this input. -/
theorem c3_counterexample :
    resolveModelTypes ⟨7, none⟩
        = .error ⟨7, "Expected generic parameters for model and parent model"⟩
      ∧ (⟨7, none⟩ : TraitRef).generics = none := ⟨rfl, rfl⟩

/-- C3 (amended): resolution never silently defaults: with no generic
list it fails with an error attributed to the trait-path segments span;
with a generic list carrying fewer than two type arguments it fails with
an error attributed to the argument-list span; with at least two type
arguments in positional order, the first is the model type and the second
the parent-model type. -/
theorem c3_amended_resolution (t : TraitRef) :
    (t.generics = none →
      resolveModelTypes t
        = .error ⟨t.segmentsSpan,
            "Expected generic parameters for model and parent model"⟩)
    ∧ (∀ g, t.generics = some g →
        ((g.args.filterMap GenericArgument.tyArg?).length < 2 →
          resolveModelTypes t
            = .error ⟨g.span, "Expected two generic type parameters"⟩)
        ∧ ∀ m p rest, g.args.filterMap GenericArgument.tyArg? = m :: p :: rest →
            resolveModelTypes t = .ok ⟨m, p⟩) := by
  constructor
  · intro h
    simp [resolveModelTypes, traitGenerics, h]
  · intro g hg
    constructor
    · intro hlen
      simp [resolveModelTypes, traitGenerics, hg, ModelTypes_new_short hlen]
    · intro m p rest hfm
      simp [resolveModelTypes, traitGenerics, hg, ModelTypes_new_ok hfm]

theorem c3_amended_resolution_witness :
    resolveModelTypes ⟨9, some ⟨5, [.tyArg 1, .tyArg 2]⟩⟩
      = .ok ⟨1, 2⟩ :=
  ((c3_amended_resolution ⟨9, some ⟨5, [.tyArg 1, .tyArg 2]⟩⟩).2
      ⟨5, [.tyArg 1, .tyArg 2]⟩ rfl).2 1 2 [] rfl

/-! ### C4: the reactive update cycle -/

/-- Observable side effects of one update cycle of the generated
`view`. -/
inductive Effect : Type where
  | recompute : Nat → Nat → Effect
  | trackedAssign : Nat → Nat → Effect
  | manualRun : Nat → Effect
  deriving DecidableEq

/-- Execution of one statement of the `view` body against the guard
evaluations of the current cycle: a watched property is recomputed
unconditionally, a track-guarded update runs only when its guard
evaluates true, the manual view block runs opaquely, and the remaining
statement forms do not occur in `view`. -/
def Stmt.exec (guardEval : Nat → Bool) : Stmt → List Effect
  | .watchUpdate w p => [.recompute w p]
  | .trackUpdate w g => if guardEval g then [.trackedAssign w g] else []
  | .userBlock b => [.manualRun b]
  | _ => []

/-- One full update cycle: every statement of the body executes once, in
order. -/
def runView (guardEval : Nat → Bool) (body : List Stmt) : List Effect :=
  (body.map (Stmt.exec guardEval)).flatten

theorem runView_append (g : Nat → Bool) (l1 l2 : List Stmt) :
    runView g (l1 ++ l2) = runView g l1 ++ runView g l2 := by
  simp [runView]

theorem count_runView_zero {g : Nat → Bool} {l : List Stmt} {e : Effect}
    (h : ∀ s ∈ l, (Stmt.exec g s).count e = 0) :
    (runView g l).count e = 0 := by
  induction l with
  | nil => rfl
  | cons s l ih =>
    have : runView g (s :: l) = Stmt.exec g s ++ runView g l := by
      simp [runView]
    rw [this, List.count_append, h s (by simp), ih (fun x hx => h x (by simp [hx]))]

/-- Executing the watch statements of one widget yields exactly one
recomputation per watched property, in declaration order. -/
theorem runView_viewStmts (g : Nat → Bool) (fw : FlatWidget) :
    runView g (viewStmts fw)
      = fw.data.watchedProps.map (Effect.recompute fw.data.name) := by
  rw [viewStmts]
  induction fw.data.watchedProps with
  | nil => rfl
  | cons p l ih =>
    simp only [List.map_cons]
    have : runView g (Stmt.watchUpdate fw.data.name p
        :: l.map (Stmt.watchUpdate fw.data.name))
        = Stmt.exec g (Stmt.watchUpdate fw.data.name p)
            ++ runView g (l.map (Stmt.watchUpdate fw.data.name)) := by
      simp [runView]
    rw [this, ih]
    rfl

theorem count_map_recompute (w n p : Nat) (l : List Nat) :
    (l.map (Effect.recompute w)).count (Effect.recompute n p)
      = if n = w then l.count p else 0 := by
  induction l with
  | nil => simp
  | cons x l ih =>
    simp only [List.map_cons, List.count_cons, ih, beq_iff_eq,
      Effect.recompute.injEq]
    by_cases hw : n = w
    · subst hw
      by_cases hp : p = x
      · subst hp
        simp
      · simp [hp]
    · simp [hw]
      exact fun h' _ => hw h'.symm

/-- Widgets with a different name contribute no recomputation of the
given widget's properties. -/
theorem count_recompute_viewStream_zero {g : Nat → Bool} {n p : Nat}
    {ws : List FlatWidget} (h : ∀ fw ∈ ws, fw.data.name ≠ n) :
    (runView g (viewStream ws)).count (Effect.recompute n p) = 0 := by
  apply count_runView_zero
  intro s hs
  obtain ⟨fw, hfw, q, hq, rfl⟩ := mem_viewStream hs
  rw [List.count_eq_zero]
  intro hmem
  simp only [Stmt.exec, List.mem_singleton, Effect.recompute.injEq] at hmem
  exact h fw hfw hmem.1.symm

/-- The track stream never recomputes a watched property. -/
theorem count_recompute_trackStream_zero (g : Nat → Bool) (n p : Nat)
    (ws : List FlatWidget) :
    (runView g (trackStream ws)).count (Effect.recompute n p) = 0 := by
  apply count_runView_zero
  intro s hs
  obtain ⟨fw, hfw, gd, hgd, rfl⟩ := mem_trackStream hs
  rw [List.count_eq_zero]
  intro hmem
  simp only [Stmt.exec] at hmem
  split at hmem <;> simp at hmem

/-- The manual view block never recomputes a watched property. -/
theorem count_recompute_optBlock_zero (g : Nat → Bool) (n p : Nat)
    (o : Option Nat) :
    (runView g (optBlock o)).count (Effect.recompute n p) = 0 := by
  apply count_runView_zero
  intro s hs
  cases o with
  | none => simp [optBlock] at hs
  | some b =>
    simp only [optBlock, List.mem_singleton] at hs
    rw [hs]
    simp [Stmt.exec]

/-- The view stream never produces a tracked assignment. -/
theorem count_tracked_viewStream_zero (g : Nat → Bool) (n gd : Nat)
    (ws : List FlatWidget) :
    (runView g (viewStream ws)).count (Effect.trackedAssign n gd) = 0 := by
  apply count_runView_zero
  intro s hs
  obtain ⟨fw, hfw, q, hq, rfl⟩ := mem_viewStream hs
  rw [List.count_eq_zero]
  intro hmem
  simp [Stmt.exec] at hmem

/-- The manual view block never produces a tracked assignment. -/
theorem count_tracked_optBlock_zero (g : Nat → Bool) (n gd : Nat)
    (o : Option Nat) :
    (runView g (optBlock o)).count (Effect.trackedAssign n gd) = 0 := by
  apply count_runView_zero
  intro s hs
  cases o with
  | none => simp [optBlock] at hs
  | some b =>
    simp only [optBlock, List.mem_singleton] at hs
    rw [hs]
    simp [Stmt.exec]

/-- A widget whose guard is false — and any widget of a different name or
guard — contributes no tracked assignment for the given name and guard. -/
theorem count_tracked_trackStream_zero {g : Nat → Bool} {n gd : Nat}
    {ws : List FlatWidget}
    (h : ∀ fw ∈ ws, fw.data.name = n → fw.data.track = some gd →
      g gd = false) :
    (runView g (trackStream ws)).count (Effect.trackedAssign n gd) = 0 := by
  apply count_runView_zero
  intro s hs
  obtain ⟨fw, hfw, g2, hg2, rfl⟩ := mem_trackStream hs
  rw [List.count_eq_zero]
  intro hmem
  simp only [Stmt.exec] at hmem
  split at hmem
  · rename_i hguard
    simp only [List.mem_singleton, Effect.trackedAssign.injEq] at hmem
    obtain ⟨hn, hg⟩ := hmem
    rw [← hg] at hguard
    have hf := h fw hfw hn.symm (by rw [hg]; exact hg2)
    rw [hf] at hguard
    cases hguard
  · simp at hmem

/-- `x` occurs strictly before `y` in the statement list `l`. -/
def OrderedIn (x y : Stmt) (l : List Stmt) : Prop :=
  ∃ as bs cs, l = as ++ x :: bs ++ y :: cs

theorem nodup_names_split {ws xs ys : List FlatWidget} {fw : FlatWidget}
    (hnodup : (ws.map (fun w => w.data.name)).Nodup)
    (hdec : ws = xs ++ fw :: ys) :
    (∀ g ∈ xs, g.data.name ≠ fw.data.name)
      ∧ ∀ g ∈ ys, g.data.name ≠ fw.data.name := by
  rw [hdec, List.map_append, List.map_cons, List.nodup_append] at hnodup
  obtain ⟨h1, h2, hdisj⟩ := hnodup
  constructor
  · intro g hg hcon
    exact hdisj (List.mem_map.2 ⟨g, hg, rfl⟩) (by rw [hcon]; simp)
  · intro g hg hcon
    rw [List.nodup_cons] at h2
    exact h2.1 (by rw [← hcon]; exact List.mem_map.2 ⟨g, hg, rfl⟩)

theorem nodup_name_unique {ws : List FlatWidget} {fw fw' : FlatWidget}
    (hnodup : (ws.map (fun w => w.data.name)).Nodup)
    (h1 : fw ∈ ws) (h2 : fw' ∈ ws) (heq : fw'.data.name = fw.data.name) :
    fw' = fw := by
  obtain ⟨xs, ys, hdec⟩ := List.append_of_mem h1
  obtain ⟨hx, hy⟩ := nodup_names_split hnodup hdec
  rw [hdec] at h2
  rcases List.mem_append.1 h2 with hxs | hcons
  · exact absurd heq (hx fw' hxs)
  · rcases List.mem_cons.1 hcons with rfl | hys
    · rfl
    · exact absurd heq (hy fw' hys)

/-- Exactly one recomputation of a watched property in the view
stream. -/
theorem count_recompute_viewStream_one {m : Nat → Bool} {ws : List FlatWidget}
    {fw : FlatWidget} {p : Nat}
    (hnodup : (ws.map (fun w => w.data.name)).Nodup)
    (hfw : fw ∈ ws) (hpnodup : fw.data.watchedProps.Nodup)
    (hp : p ∈ fw.data.watchedProps) :
    (runView m (viewStream ws)).count (Effect.recompute fw.data.name p) = 1 := by
  obtain ⟨xs, ys, hdec⟩ := List.append_of_mem hfw
  obtain ⟨hx, hy⟩ := nodup_names_split hnodup hdec
  have hsplit : viewStream ws = viewStream xs ++ viewStmts fw ++ viewStream ys := by
    rw [hdec]
    simp [viewStream, List.append_assoc]
  rw [hsplit, runView_append, runView_append, List.count_append,
    List.count_append]
  rw [count_recompute_viewStream_zero (fun g hg => hx g hg),
    count_recompute_viewStream_zero (fun g hg => hy g hg)]
  rw [runView_viewStmts, count_map_recompute]
  simp [List.count_eq_one_of_mem hpnodup hp]

theorem flatten_map_order {α : Type} (g : α → List Stmt) {l xs ys zs : List α}
    {fw fw' : α} (h : l = xs ++ fw :: ys ++ fw' :: zs)
    {b b' : Stmt} (hb : b ∈ g fw) (hb' : b' ∈ g fw') :
    ∃ as bs cs, (l.map g).flatten = as ++ b :: bs ++ b' :: cs := by
  obtain ⟨u1, u2, hu⟩ := List.append_of_mem hb
  obtain ⟨v1, v2, hv⟩ := List.append_of_mem hb'
  refine ⟨(xs.map g).flatten ++ u1, u2 ++ (ys.map g).flatten ++ v1,
    v2 ++ (zs.map g).flatten, ?_⟩
  rw [h]
  simp only [List.map_append, List.map_cons, List.flatten_append,
    List.flatten_cons, hu, hv]
  simp [List.append_assoc]

theorem orderedIn_viewBody_of_viewStream {f : Funcs} {ws : List FlatWidget}
    {x y : Stmt} (h : ∃ as bs cs, viewStream ws = as ++ x :: bs ++ y :: cs) :
    OrderedIn x y (viewBody f ws) := by
  obtain ⟨as, bs, cs, hh⟩ := h
  refine ⟨optBlock f.manual_view ++ as, bs, cs ++ trackStream ws, ?_⟩
  rw [viewBody, hh]
  simp [List.append_assoc]

theorem orderedIn_viewBody_of_trackStream {f : Funcs} {ws : List FlatWidget}
    {x y : Stmt} (h : ∃ as bs cs, trackStream ws = as ++ x :: bs ++ y :: cs) :
    OrderedIn x y (viewBody f ws) := by
  obtain ⟨as, bs, cs, hh⟩ := h
  refine ⟨optBlock f.manual_view ++ viewStream ws ++ as, bs, cs, ?_⟩
  rw [viewBody, hh]
  simp [List.append_assoc]

theorem watchUpdate_mem_viewStream {ws : List FlatWidget} {fw : FlatWidget}
    {p : Nat} (hfw : fw ∈ ws) (hp : p ∈ fw.data.watchedProps) :
    Stmt.watchUpdate fw.data.name p ∈ viewStream ws := by
  rw [viewStream, List.mem_flatten]
  refine ⟨viewStmts fw, List.mem_map.2 ⟨fw, hfw, rfl⟩, ?_⟩
  rw [viewStmts]
  exact List.mem_map.2 ⟨p, hp, rfl⟩

theorem trackUpdate_mem_trackStream {ws : List FlatWidget} {fw : FlatWidget}
    {g : Nat} (hfw : fw ∈ ws) (hg : fw.data.track = some g) :
    Stmt.trackUpdate fw.data.name g ∈ trackStream ws := by
  rw [trackStream, List.mem_flatten]
  refine ⟨trackStmts fw, List.mem_map.2 ⟨fw, hfw, rfl⟩, ?_⟩
  rw [trackStmts, hg]
  simp

theorem orderedIn_watch_track {f : Funcs} {ws : List FlatWidget}
    {x y : Stmt} (hx : x ∈ viewStream ws) (hy : y ∈ trackStream ws) :
    OrderedIn x y (viewBody f ws) := by
  obtain ⟨a1, a2, ha⟩ := List.append_of_mem hx
  obtain ⟨b1, b2, hb⟩ := List.append_of_mem hy
  refine ⟨optBlock f.manual_view ++ a1, a2 ++ b1, b2, ?_⟩
  rw [viewBody, ha, hb]
  simp [List.append_assoc]

/-- C4 (counterexample): in the generated `view`, all of `view_stream`
precedes all of `track_stream`, so the ordering of reactive update
statements does not follow tree order across the two streams: for a root
carrying a `track!` guard with a child carrying a `watch!` property, the
root's reactive statement is emitted after the child's even though the
root precedes the child in flatten order. -/
theorem c4_counterexample :
    widgetList (WidgetNode.node ⟨0, [], [], [], [], some 7⟩
        [WidgetNode.node ⟨1, [], [5], [], [], none⟩ []])
      = [⟨⟨0, [], [], [], [], some 7⟩, none⟩,
          ⟨⟨1, [], [5], [], [], none⟩, some 0⟩]
    ∧ viewBody ⟨none, none, none, none, none⟩
        (widgetList (WidgetNode.node ⟨0, [], [], [], [], some 7⟩
          [WidgetNode.node ⟨1, [], [5], [], [], none⟩ []]))
      = [Stmt.watchUpdate 1 5, Stmt.trackUpdate 0 7]
    ∧ ¬ OrderedIn (Stmt.trackUpdate 0 7) (Stmt.watchUpdate 1 5)
        (viewBody ⟨none, none, none, none, none⟩
          (widgetList (WidgetNode.node ⟨0, [], [], [], [], some 7⟩
            [WidgetNode.node ⟨1, [], [5], [], [], none⟩ []]))) := by
  have hlist : widgetList (WidgetNode.node ⟨0, [], [], [], [], some 7⟩
      [WidgetNode.node ⟨1, [], [5], [], [], none⟩ []])
      = [⟨⟨0, [], [], [], [], some 7⟩, none⟩,
          ⟨⟨1, [], [5], [], [], none⟩, some 0⟩] := by
    simp [widgetList, flattenNode, flattenForest]
  have hbody : viewBody ⟨none, none, none, none, none⟩
      (widgetList (WidgetNode.node ⟨0, [], [], [], [], some 7⟩
        [WidgetNode.node ⟨1, [], [5], [], [], none⟩ []]))
      = [Stmt.watchUpdate 1 5, Stmt.trackUpdate 0 7] := by
    rw [hlist]
    simp [viewBody, optBlock, viewStream, trackStream, viewStmts, trackStmts]
  refine ⟨hlist, hbody, ?_⟩
  rintro ⟨as, bs, cs, h⟩
  rw [hbody] at h
  have hlen := congrArg List.length h
  simp only [List.length_cons, List.length_append, List.length_nil] at hlen
  have hz : as.length = 0 ∧ bs.length = 0 ∧ cs.length = 0 := by omega
  obtain ⟨ha, hb, hc⟩ := hz
  rw [List.length_eq_zero] at ha hb hc
  subst ha
  subst hb
  subst hc
  simp at h

/-- C4 (amended): in the generated `view`, (A) each watched property of
each widget is recomputed exactly once per update cycle; (B) a
track-guarded update whose guard evaluates false produces zero tracked
side effects that cycle; (C) watched recomputations follow flatten order
among themselves; (D) track-guarded updates follow flatten order among
themselves; and (E) every watched recomputation precedes every
track-guarded update, because `view_stream` is emitted before
`track_stream`. -/
theorem c4_amended_view_update (f : Funcs) (t : WidgetNode) (m : Nat → Bool)
    (hnodup : ((widgetList t).map (fun fw => fw.data.name)).Nodup) :
    (∀ fw, fw ∈ widgetList t → ∀ p, fw.data.watchedProps.Nodup →
      p ∈ fw.data.watchedProps →
      (runView m (viewBody f (widgetList t))).count
          (Effect.recompute fw.data.name p) = 1)
    ∧ (∀ fw, fw ∈ widgetList t → ∀ g, fw.data.track = some g → m g = false →
      (runView m (viewBody f (widgetList t))).count
          (Effect.trackedAssign fw.data.name g) = 0)
    ∧ (∀ xs fw ys fw' zs, widgetList t = xs ++ fw :: ys ++ fw' :: zs →
      ∀ p ∈ fw.data.watchedProps, ∀ p' ∈ fw'.data.watchedProps,
        OrderedIn (Stmt.watchUpdate fw.data.name p)
          (Stmt.watchUpdate fw'.data.name p') (viewBody f (widgetList t)))
    ∧ (∀ xs fw ys fw' zs, widgetList t = xs ++ fw :: ys ++ fw' :: zs →
      ∀ g, fw.data.track = some g → ∀ g2, fw'.data.track = some g2 →
        OrderedIn (Stmt.trackUpdate fw.data.name g)
          (Stmt.trackUpdate fw'.data.name g2) (viewBody f (widgetList t)))
    ∧ (∀ fw, fw ∈ widgetList t → ∀ fw', fw' ∈ widgetList t →
      ∀ p ∈ fw.data.watchedProps, ∀ g, fw'.data.track = some g →
        OrderedIn (Stmt.watchUpdate fw.data.name p)
          (Stmt.trackUpdate fw'.data.name g) (viewBody f (widgetList t))) := by
  refine ⟨?_, ?_, ?_, ?_, ?_⟩
  · intro fw hfw p hpnodup hp
    rw [viewBody, runView_append, runView_append, List.count_append,
      List.count_append]
    rw [count_recompute_optBlock_zero, count_recompute_trackStream_zero,
      count_recompute_viewStream_one hnodup hfw hpnodup hp]
  · intro fw hfw g hg hguard
    rw [viewBody, runView_append, runView_append, List.count_append,
      List.count_append]
    rw [count_tracked_optBlock_zero, count_tracked_viewStream_zero]
    rw [count_tracked_trackStream_zero]
    intro fw' hfw' hname htrack
    exact hguard
  · intro xs fw ys fw' zs hdec p hp p' hp'
    exact orderedIn_viewBody_of_viewStream
      (flatten_map_order viewStmts hdec
        (by rw [viewStmts]; exact List.mem_map.2 ⟨p, hp, rfl⟩)
        (by rw [viewStmts]; exact List.mem_map.2 ⟨p', hp', rfl⟩))
  · intro xs fw ys fw' zs hdec g hg g2 hg2
    exact orderedIn_viewBody_of_trackStream
      (flatten_map_order trackStmts hdec
        (by rw [trackStmts, hg]; simp)
        (by rw [trackStmts, hg2]; simp))
  · intro fw hfw fw' hfw' p hp g hg
    exact orderedIn_watch_track (watchUpdate_mem_viewStream hfw hp)
      (trackUpdate_mem_trackStream hfw' hg)

theorem c4_amended_view_update_witness :
    (runView (fun _ => false)
        (viewBody ⟨none, none, none, none, none⟩
          (widgetList (WidgetNode.node ⟨0, [], [5], [], [], some 7⟩ [])))).count
        (Effect.recompute 0 5) = 1 :=
  (c4_amended_view_update ⟨none, none, none, none, none⟩
      (WidgetNode.node ⟨0, [], [5], [], [], some 7⟩ []) (fun _ => false)
      (by simp [widgetList, flattenNode, flattenForest])).1
    ⟨⟨0, [], [5], [], [], some 7⟩, none⟩
    (by simp [widgetList, flattenNode, flattenForest])
    5 (by simp) (by simp)
